import Mathlib

/-!
Shallow embedding of the MCP code-review agent (src/run_mcp_agent.py):
the tool registry `MCPClientManager` (connect_to_server, call_tool,
get_tool_descriptions, cleanup) and the agent `CodeReviewAgentMCP`
(think, act, run).  External collaborators (the MCP session transport,
the OpenAI completion call) are modelled as explicit function
parameters; everything the Python code itself computes is translated
directly.  The Python `json` module is modelled by an executable parser
for the JSON subset the agent exchanges (null, booleans, integers,
strings with the common escapes, arrays, objects); `\uXXXX` escapes,
fractions and exponents are outside the subset and simply fail to
parse, which the claims never exercise.
-/

namespace MCPAgent

/-- JSON values as produced by the Python function `json.loads`. -/
inductive Json where
  | null : Json
  | bool (b : Bool) : Json
  | num (n : Int) : Json
  | str (s : String) : Json
  | arr (xs : List Json) : Json
  | obj (kvs : List (String × Json)) : Json
  deriving Repr

/-- Left brace character (written by code point to keep strings plain). -/
def lbrace : Char := Char.ofNat 123

/-- Right brace character. -/
def rbrace : Char := Char.ofNat 125

/-- Apostrophe as a string (Python repr quotes). -/
def squote : String := String.singleton (Char.ofNat 39)

/-- Python-dict insertion: an existing key keeps its position and gets the
new value; a fresh key is appended at the end (insertion order). -/
def dictInsert {α : Type} (d : List (String × α)) (k : String) (v : α) :
    List (String × α) :=
  match d with
  | [] => [(k, v)]
  | (k', v') :: rest =>
      if k' = k then (k, v) :: rest else (k', v') :: dictInsert rest k v

/-- Python-dict lookup (`d.get(k)` / `d[k]`). -/
def dictGet? {α : Type} (d : List (String × α)) (k : String) : Option α :=
  match d with
  | [] => none
  | (k', v) :: rest => if k' = k then some v else dictGet? rest k

/-- Skip JSON whitespace. -/
def skipWs : List Char → List Char
  | [] => []
  | c :: cs =>
      if c = ' ' ∨ c = '\t' ∨ c = '\n' ∨ c = '\r' then skipWs cs else c :: cs

/-- One-character escape table of the JSON grammar (no `\uXXXX`). -/
def escChar (c : Char) : Option Char :=
  if c = '"' then some '"'
  else if c = '\\' then some '\\'
  else if c = '/' then some '/'
  else if c = 'b' then some (Char.ofNat 8)
  else if c = 'f' then some (Char.ofNat 12)
  else if c = 'n' then some '\n'
  else if c = 'r' then some '\r'
  else if c = 't' then some '\t'
  else none

/-- Parse the body of a JSON string after the opening quote; returns the
decoded characters and the rest after the closing quote. -/
def parseStringBody : List Char → Option (List Char × List Char)
  | [] => none
  | '"' :: cs => some ([], cs)
  | '\\' :: [] => none
  | '\\' :: e :: cs =>
      match escChar e with
      | none => none
      | some c => (parseStringBody cs).map fun p => (c :: p.1, p.2)
  | c :: cs => (parseStringBody cs).map fun p => (c :: p.1, p.2)

/-- Take a maximal run of decimal digits. -/
def takeDigits : List Char → List Char × List Char
  | [] => ([], [])
  | c :: cs =>
      if c.isDigit then
        let p := takeDigits cs
        (c :: p.1, p.2)
      else ([], c :: cs)

/-- Decimal digits to a natural number. -/
def digitsToNat (ds : List Char) : Nat :=
  ds.foldl (fun a c => a * 10 + (c.toNat - 48)) 0

mutual

/-- Parse one JSON value (fuel-bounded; fuel `length + 1` always suffices). -/
def parseVal : Nat → List Char → Option (Json × List Char)
  | 0, _ => none
  | fuel + 1, cs =>
      match skipWs cs with
      | [] => none
      | c :: rest =>
          if c = '"' then
            (parseStringBody rest).map fun p => (Json.str (String.mk p.1), p.2)
          else if c = 't' then
            match rest with
            | 'r' :: 'u' :: 'e' :: r => some (Json.bool true, r)
            | _ => none
          else if c = 'f' then
            match rest with
            | 'a' :: 'l' :: 's' :: 'e' :: r => some (Json.bool false, r)
            | _ => none
          else if c = 'n' then
            match rest with
            | 'u' :: 'l' :: 'l' :: r => some (Json.null, r)
            | _ => none
          else if c = '-' then
            match takeDigits rest with
            | ([], _) => none
            | (ds, r) => some (Json.num (-(digitsToNat ds : Int)), r)
          else if c.isDigit then
            let p := takeDigits (c :: rest)
            some (Json.num (digitsToNat p.1), p.2)
          else if c = '[' then
            match skipWs rest with
            | ']' :: r => some (Json.arr [], r)
            | r => (parseElems fuel r).map fun p => (Json.arr p.1, p.2)
          else if c = lbrace then
            match skipWs rest with
            | d :: r =>
                if d = rbrace then some (Json.obj [], r)
                else
                  (parseMembers fuel (d :: r)).map fun p =>
                    (Json.obj (p.1.foldl (fun m kv => dictInsert m kv.1 kv.2) []), p.2)
            | [] => none
          else none

/-- Parse the elements of a non-empty JSON array (after `[`). -/
def parseElems : Nat → List Char → Option (List Json × List Char)
  | 0, _ => none
  | fuel + 1, cs =>
      match parseVal fuel cs with
      | none => none
      | some (v, rest) =>
          match skipWs rest with
          | ',' :: r => (parseElems fuel r).map fun p => (v :: p.1, p.2)
          | ']' :: r => some ([v], r)
          | _ => none

/-- Parse the members of a non-empty JSON object (after the brace). -/
def parseMembers : Nat → List Char → Option (List (String × Json) × List Char)
  | 0, _ => none
  | fuel + 1, cs =>
      match skipWs cs with
      | '"' :: rest =>
          match parseStringBody rest with
          | none => none
          | some (key, r1) =>
              match skipWs r1 with
              | ':' :: r2 =>
                  match parseVal fuel r2 with
                  | none => none
                  | some (v, r3) =>
                      match skipWs r3 with
                      | ',' :: r4 =>
                          (parseMembers fuel r4).map fun p =>
                            ((String.mk key, v) :: p.1, p.2)
                      | d :: r4 =>
                          if d = rbrace then some ([(String.mk key, v)], r4)
                          else none
                      | [] => none
              | _ => none
      | _ => none

end

/-- Model of the Python function `json.loads`: parse the whole string as one JSON
document (trailing whitespace allowed); `none` models a raised
`json.JSONDecodeError`. -/
def json_loads (s : String) : Option Json :=
  match parseVal (s.data.length + 1) s.data with
  | some (v, rest) => if skipWs rest = [] then some v else none
  | none => none

/-- Python truthiness of a value obtained from `json.loads`
(`if parsed.get("done"):`). -/
def jsonTruthy : Json → Bool
  | Json.null => false
  | Json.bool b => b
  | Json.num n => n ≠ 0
  | Json.str s => s ≠ ""
  | Json.arr xs => ¬ xs.isEmpty
  | Json.obj kvs => ¬ kvs.isEmpty

/-- Lower-case hexadecimal digit. -/
def hexDigit (n : Nat) : Char :=
  if n < 10 then Char.ofNat (48 + n) else Char.ofNat (87 + n)

/-- Four lower-case hex digits, as in a JSON `\uXXXX` escape. -/
def hex4 (n : Nat) : String :=
  String.mk [hexDigit (n / 4096 % 16), hexDigit (n / 256 % 16),
             hexDigit (n / 16 % 16), hexDigit (n % 16)]

/-- Escape one character the way `json.dumps` does with its default
`ensure_ascii=True` (non-BMP surrogate pairs are outside the modelled
subset; the strings the agent handles are ASCII). -/
def jsonEscapeChar (c : Char) : String :=
  if c = '\\' then "\\\\"
  else if c = '"' then "\\\""
  else if c = '\n' then "\\n"
  else if c = '\t' then "\\t"
  else if c = '\r' then "\\r"
  else if c = Char.ofNat 8 then "\\b"
  else if c = Char.ofNat 12 then "\\f"
  else if c.toNat < 32 ∨ c.toNat > 126 then "\\u" ++ hex4 c.toNat
  else String.singleton c

/-- Model of `json.dumps` on one string. -/
def jsonDumpsStr (s : String) : String :=
  "\"" ++ String.join (s.data.map jsonEscapeChar) ++ "\""

/-- Model of `json.dumps(xs, indent=2)` for a list of strings, as used on the
conversation history of the agent. -/
def jsonDumpsList2 (xs : List String) : String :=
  match xs with
  | [] => "[]"
  | _ => "[\n" ++ String.intercalate ",\n" (xs.map fun s => "  " ++ jsonDumpsStr s)
           ++ "\n]"

/-- Python repr-escape for the characters the agent can actually produce
(backslash, quote, common controls; other text passes through). -/
def pyReprEscape (quote : Char) (c : Char) : String :=
  if c = '\\' then "\\\\"
  else if c = quote then "\\" ++ String.singleton quote
  else if c = '\n' then "\\n"
  else if c = '\t' then "\\t"
  else if c = '\r' then "\\r"
  else String.singleton c

/-- Python `repr` of a string: single-quoted, except double-quoted when the
string contains a single quote and no double quote. -/
def pyStrRepr (s : String) : String :=
  let hasSingle := s.data.contains (Char.ofNat 39)
  let hasDouble := s.data.contains '"'
  let q : Char := if hasSingle ∧ ¬ hasDouble then '"' else Char.ofNat 39
  String.singleton q ++ String.join (s.data.map (pyReprEscape q)) ++ String.singleton q

mutual

/-- Python `repr` of a `json.loads` value (dicts print with braces and
quoted keys, `True`/`False`/`None` capitalised). -/
def pyReprJson : Json → String
  | Json.null => "None"
  | Json.bool true => "True"
  | Json.bool false => "False"
  | Json.num n => toString n
  | Json.str s => pyStrRepr s
  | Json.arr xs => "[" ++ pyReprList xs ++ "]"
  | Json.obj kvs => String.singleton lbrace ++ pyReprKvs kvs ++ String.singleton rbrace

/-- Comma-separated reprs of list elements. -/
def pyReprList : List Json → String
  | [] => ""
  | [x] => pyReprJson x
  | x :: y :: xs => pyReprJson x ++ ", " ++ pyReprList (y :: xs)

/-- Comma-separated `key: value` reprs of dict items. -/
def pyReprKvs : List (String × Json) → String
  | [] => ""
  | [(k, v)] => pyStrRepr k ++ ": " ++ pyReprJson v
  | (k, v) :: kv :: kvs =>
      pyStrRepr k ++ ": " ++ pyReprJson v ++ ", " ++ pyReprKvs (kv :: kvs)

end

/-- Python `str` of a `json.loads` value, as an f-string renders it
(a `str` renders bare, everything else by its repr). -/
def pyStrJson : Json → String
  | Json.str s => s
  | v => pyReprJson v

/-- Python type name of a `json.loads` value (for `AttributeError` text). -/
def pyTypeName : Json → String
  | Json.null => "NoneType"
  | Json.bool _ => "bool"
  | Json.num _ => "int"
  | Json.str _ => "str"
  | Json.arr _ => "list"
  | Json.obj _ => "dict"

/-- The Python exceptions the agent code can raise or catch.  The
diagnostic text of the external `json` module is abstracted to a fixed
message; no claim inspects it. -/
inductive PyErr where
  | valueError (msg : String)
  | keyError (key : String)
  | jsonDecodeError
  | attributeError (tyName : String)
  | unboundLocalError (nm : String)
  | sessionError (msg : String)

/-- Rendering `str(e)` of a caught exception, as interpolated by
`f"Error executing tool \x7be\x7d"`. -/
def PyErr.str : PyErr → String
  | PyErr.valueError m => m
  | PyErr.keyError k => squote ++ k ++ squote
  | PyErr.jsonDecodeError => "Expecting value"
  | PyErr.attributeError ty =>
      squote ++ ty ++ squote ++ " object has no attribute " ++ squote ++ "get" ++ squote
  | PyErr.unboundLocalError nm =>
      "local variable " ++ squote ++ nm ++ squote ++ " referenced before assignment"
  | PyErr.sessionError m => m

/-- A tool as advertised by an MCP server (`response.tools` entries). -/
structure Tool where
  name : String
  description : String
  inputSchema : Json

/-- One entry of `available_tools`: the dict
`\x7b"server_name": ..., "session": ..., "tool": ...\x7d` built at
discovery time.  The session object is modelled by an opaque string
handle. -/
structure ToolInfo where
  server_name : String
  session : String
  tool : Tool

/-- State of `MCPClientManager`: the `sessions` dict, the
`available_tools` dict, and whether the `AsyncExitStack` has been
released. -/
structure MCPClientManager where
  sessions : List (String × String)
  available_tools : List (String × ToolInfo)
  stackClosed : Bool

/-- A fresh manager (`MCPClientManager.__init__`). -/
def emptyManager : MCPClientManager :=
  { sessions := [], available_tools := [], stackClosed := false }

/-- One text item of an MCP tool result. -/
structure TextContent where
  text : String

/-- Result of `session.call_tool`: its `content` list. -/
structure CallToolResult where
  content : List TextContent

/-- External behaviour of the tool sessions: session handle, bare tool
name and arguments to either an exception (message) or a result. -/
def SessionBehavior : Type :=
  String → String → Json → Except String CallToolResult

/-- Trace record of one `session.call_tool` invocation. -/
structure SessionCall where
  session : String
  name : String
  arguments : Json

/-- Model of `connect_to_server`, restricted to what the manager itself computes:
the transport establishment is external, `discovered` is the tool list
the server answered to `session.list_tools()`.  Each tool is registered
under the qualified key `server_name ++ "." ++ tool.name`. -/
def MCPClientManager.connect_to_server (m : MCPClientManager) (server_name : String)
    (discovered : List Tool) : MCPClientManager :=
  let session := server_name
  let m1 := { m with sessions := dictInsert m.sessions server_name session }
  { m1 with
    available_tools :=
      discovered.foldl
        (fun d tool =>
          dictInsert d (server_name ++ "." ++ tool.name)
            { server_name := server_name, session := session, tool := tool })
        m1.available_tools }

/-- Model of `call_tool`: membership check first (`ValueError` on an unknown key,
with no session call), then the session is invoked with the *stored*
bare tool name; an empty `content` list yields the fixed sentinel.  The
second component is the trace of session invocations performed. -/
def MCPClientManager.call_tool (m : MCPClientManager) (sess : SessionBehavior)
    (tool_name : Json) (arguments : Json) : Except PyErr String × List SessionCall :=
  let lookup : Option ToolInfo :=
    match tool_name with
    | Json.str s => dictGet? m.available_tools s
    | _ => none
  match lookup with
  | none => (Except.error (PyErr.valueError ("Unknown tool: " ++ pyStrJson tool_name)), [])
  | some tool_info =>
      let actual_tool_name := tool_info.tool.name
      let callRec : SessionCall := ⟨tool_info.session, actual_tool_name, arguments⟩
      match sess tool_info.session actual_tool_name arguments with
      | Except.error e => (Except.error (PyErr.sessionError e), [callRec])
      | Except.ok result =>
          match result.content with
          | c :: _ => (Except.ok c.text, [callRec])
          | [] => (Except.ok "Tool executed successfully (no output)", [callRec])

/-- One entry of `get_tool_descriptions()`. -/
structure ToolDescription where
  name : String
  description : String
  inputSchema : Json

/-- Model of `get_tool_descriptions`: one descriptor per `available_tools` entry,
in insertion order, named by the qualified key. -/
def MCPClientManager.get_tool_descriptions (m : MCPClientManager) : List ToolDescription :=
  m.available_tools.map fun kv =>
    { name := kv.1, description := kv.2.tool.description,
      inputSchema := kv.2.tool.inputSchema }

/-- Model of `cleanup`: awaits `exit_stack.aclose()`, which releases the stacked
session contexts (a second call finds the stack already empty and is a
no-op).  It never touches `sessions` or `available_tools`. -/
def MCPClientManager.cleanup (m : MCPClientManager) : MCPClientManager :=
  { m with stackClosed := true }

/-- One line of the `tools_list` built in `think`:
`f"tool:...,\ndescription:...\n,parameters:..."` where the parameters
are `inputSchema.get("properties", \x7b\x7d)` rendered by the f-string.
MCP schemas are JSON objects; a non-object schema would raise inside
`think` and is outside the modelled behaviours. -/
def toolLine (d : ToolDescription) : String :=
  "tool:" ++ d.name ++ ",\ndescription:" ++ d.description ++ "\n,parameters:" ++
    pyReprJson
      (match d.inputSchema with
       | Json.obj kvs => (dictGet? kvs "properties").getD (Json.obj [])
       | _ => Json.obj [])

/-- History as embedded in the prompt:
`json.dumps(self.conversation_history, indent=2)` when non-empty, the
literal fallback otherwise. -/
def historyDump (hist : List String) : String :=
  if hist.isEmpty then "No history yet" else jsonDumpsList2 hist

/-- Prompt template up to the tools list. -/
def promptPartA : String :=
  "\n        You are a code assistant with access to these tools via MCP:\n        \n        "

/-- Prompt template between the tools list and the history dump. -/
def promptPartB : String :=
  "\n        \n        Based on the user request and conversation history, decide which tool to use next.\n        Reply ONLY with JSON: \x7b\"tool\": \"tool_name\", \"args\": \x7b...\x7d\x7d\n        \n        IMPORTANT: The \"args\" object must use the exact parameter names shown in each tool\x27s Parameters schema above.\n        \n        If the task is complete, reply ONLY with: \x7b\"done\": true, \"summary\": \"what was accomplished\"\x7d\n\n        Conversation history:\n        "

/-- Prompt template between the history dump and the user request. -/
def promptPartC : String := "\n\n        User request: "

/-- Prompt template tail. -/
def promptPartD : String := "\n        "

/-- The prompt `think` sends to the completion service, built from the
tool descriptions, the conversation history and the current request. -/
def think_prompt (m : MCPClientManager) (hist : List String) (user_input : String) :
    String :=
  let tool_descriptions := m.get_tool_descriptions
  let tools_list := String.intercalate "\n" (tool_descriptions.map toolLine)
  promptPartA ++ tools_list ++ promptPartB ++ historyDump hist
    ++ promptPartC ++ user_input ++ promptPartD

/-- The observation `act` returns when its try-block raised `e`:
`f"Error executing tool \x7be\x7d"`. -/
def errObs (e : PyErr) : String := "Error executing tool " ++ e.str

/-- Python `str` of an observation (`None` renders as "None"). -/
def pyStrObs : Option Json → String
  | none => "None"
  | some v => pyStrJson v

/-- Model of `CodeReviewAgentMCP.act`: parse the decision, return
`(parsed.get("summary"), True)` on a truthy `"done"`, otherwise invoke
the tool and append one history entry; every exception inside the
try-block becomes the non-terminal observation
`f"Error executing tool \x7be\x7d"` with the history left as it was.
Returns ((observation, is_done), history after the call, session-call
trace). -/
def CodeReviewAgentMCP.act (m : MCPClientManager) (sess : SessionBehavior)
    (hist : List String) (decision : String) :
    (Option Json × Bool) × List String × List SessionCall :=
  match json_loads decision with
  | none => ((some (Json.str (errObs PyErr.jsonDecodeError)), false), hist, [])
  | some parsed =>
      match parsed with
      | Json.obj kvs =>
          if jsonTruthy ((dictGet? kvs "done").getD Json.null) then
            ((dictGet? kvs "summary", true), hist, [])
          else
            match dictGet? kvs "tool" with
            | none => ((some (Json.str (errObs (PyErr.keyError "tool"))), false), hist, [])
            | some tool_name =>
                let args := (dictGet? kvs "args").getD (Json.obj [])
                match m.call_tool sess tool_name args with
                | (Except.error e, tr) =>
                    ((some (Json.str (errObs e)), false), hist, tr)
                | (Except.ok result, tr) =>
                    ((some (Json.str result), false),
                     hist ++ ["I used tool " ++ pyStrJson tool_name ++ " with args "
                              ++ pyStrJson args ++ ". Result: " ++ result],
                     tr)
      | other =>
          ((some (Json.str (errObs (PyErr.attributeError (pyTypeName other)))), false),
           hist, [])

/-- Whether `act` on this decision takes its except-branch (malformed
JSON, a non-dict decision, a missing `"tool"` key, or a failing
`call_tool`). -/
def CodeReviewAgentMCP.actFails (m : MCPClientManager) (sess : SessionBehavior)
    (decision : String) : Bool :=
  match json_loads decision with
  | none => true
  | some (Json.obj kvs) =>
      if jsonTruthy ((dictGet? kvs "done").getD Json.null) then false
      else
        match dictGet? kvs "tool" with
        | none => true
        | some tool_name =>
            match m.call_tool sess tool_name ((dictGet? kvs "args").getD (Json.obj [])) with
            | (Except.error _, _) => true
            | (Except.ok _, _) => false
  | some _ => true

/-- Instrumentation of one `run`: the prompts sent to the completion
service, the session invocations performed, and the per-step
observations, in order. -/
structure RunTrace where
  llmCalls : List String
  sessionCalls : List SessionCall
  observations : List (Option Json)

/-- The loop body of `run`, counting down the remaining steps.  When the
budget is exhausted the code builds
`f"Workflow incomplete after \x7bmax_steps\x7d steps. Last result: \x7bresult\x7d"`;
with no completed iteration the local `result` was never assigned, which
raises `UnboundLocalError`. -/
def CodeReviewAgentMCP.runAux (m : MCPClientManager) (sess : SessionBehavior)
    (llm : String → String) (user_input : String) (max_steps : Nat) :
    Nat → List String → String → Option (Option Json) →
    Except PyErr (Option Json) × List String × RunTrace
  | 0, hist, _, last =>
      match last with
      | none => (Except.error (PyErr.unboundLocalError "result"), hist, ⟨[], [], []⟩)
      | some result =>
          (Except.ok (some (Json.str ("Workflow incomplete after " ++ toString max_steps
              ++ " steps. Last result: " ++ pyStrObs result))), hist, ⟨[], [], []⟩)
  | stepsLeft + 1, hist, current_request, _ =>
      let prompt := think_prompt m hist current_request
      let decision := llm prompt
      let out := CodeReviewAgentMCP.act m sess hist decision
      let result := out.1.1
      let is_done := out.1.2
      let hist1 := out.2.1
      let scalls := out.2.2
      if is_done then
        (Except.ok result, hist1, ⟨[prompt], scalls, [result]⟩)
      else
        let next_request := "Previous result: " ++ pyStrObs result
            ++ "\nContinue with the original task " ++ user_input
        let rest := CodeReviewAgentMCP.runAux m sess llm user_input max_steps
            stepsLeft hist1 next_request (some result)
        (rest.1, rest.2.1,
         ⟨prompt :: rest.2.2.llmCalls, scalls ++ rest.2.2.sessionCalls,
          result :: rest.2.2.observations⟩)

/-- Model of `CodeReviewAgentMCP.run`: clears the history, then iterates
think/act up to `max_steps` times.  The completion service is the
external `llm` (prompt to response text).  Returns the Python return
value (or raised exception), the final history, and the trace. -/
def CodeReviewAgentMCP.run (m : MCPClientManager) (sess : SessionBehavior)
    (llm : String → String) (user_input : String) (max_steps : Nat) :
    Except PyErr (Option Json) × List String × RunTrace :=
  CodeReviewAgentMCP.runAux m sess llm user_input max_steps max_steps [] user_input none

/-- Whether a decision text makes `act` take its completion branch:
it parses to a JSON object whose `"done"` value is truthy. -/
def isDoneDecision (d : String) : Bool :=
  match json_loads d with
  | some (Json.obj kvs) => jsonTruthy ((dictGet? kvs "done").getD Json.null)
  | _ => false

/-- A sequence of `connect_to_server` calls, each given the tool list its
server advertised, starting from manager state `m`. -/
def connectAllFrom (m : MCPClientManager) (conns : List (String × List Tool)) :
    MCPClientManager :=
  conns.foldl (fun acc c => acc.connect_to_server c.1 c.2) m

/-- A sequence of `connect_to_server` calls on a fresh manager. -/
def connectAll (conns : List (String × List Tool)) : MCPClientManager :=
  connectAllFrom emptyManager conns

/-- The qualified names of all tools discovered across a connect
sequence, in discovery order. -/
def qualNames : List (String × List Tool) → List String
  | [] => []
  | c :: rest => c.2.map (fun t => c.1 ++ "." ++ t.name) ++ qualNames rest

/-- The `available_tools` entries a collision-free connect sequence
produces, in discovery order. -/
def toolEntries : List (String × List Tool) → List (String × ToolInfo)
  | [] => []
  | c :: rest =>
      c.2.map (fun t => (c.1 ++ "." ++ t.name,
        ({ server_name := c.1, session := c.1, tool := t } : ToolInfo)))
        ++ toolEntries rest

/-- The `analyze_code` tool as advertised by
`src/code_review_mcp_server.py`. -/
def analyzeTool : Tool :=
  { name := "analyze_code",
    description := "Analyze Python code and provide imrovement suggestions",
    inputSchema := Json.obj
      [("type", Json.str "object"),
       ("properties", Json.obj
         [("code", Json.obj
           [("type", Json.str "string"),
            ("description", Json.str "The Python code to analyze")])]),
       ("require", Json.arr [Json.str "code"])] }

/-- A manager connected to that one server. -/
def M0 : MCPClientManager := emptyManager.connect_to_server "analyze" [analyzeTool]

/-- A session that always answers one text item. -/
def sess0 : SessionBehavior := fun _ _ _ => Except.ok ⟨[⟨"looks fine"⟩]⟩

/-- A session that always answers zero content items. -/
def sessNoOutput : SessionBehavior := fun _ _ _ => Except.ok ⟨[]⟩

/-- A hand-built manager state whose registry maps the plain key `"t"`. -/
def MT : MCPClientManager :=
  { sessions := [("s", "s")],
    available_tools :=
      [("t", { server_name := "s", session := "s",
               tool := { name := "t", description := "demo", inputSchema := Json.obj [] } })],
    stackClosed := false }

/-- Two connects whose `(session_id, tool_name)` pairs are distinct but
whose qualified names both render as `"a.b.c"`. -/
def M7 : MCPClientManager :=
  (emptyManager.connect_to_server "a.b"
      [{ name := "c", description := "first", inputSchema := Json.obj [] }]).connect_to_server
    "a" [{ name := "b.c", description := "second", inputSchema := Json.obj [] }]

/-- A two-server connect sequence with collision-free qualified names. -/
def conns7 : List (String × List Tool) :=
  [("analyze", [analyzeTool]),
   ("files",
    [{ name := "read_file", description := "Read a file", inputSchema := Json.obj [] },
     { name := "write_file", description := "Write a file", inputSchema := Json.obj [] }])]

/-- The per-entry invariant `connect_to_server` maintains: each registry
key is the name of the owning server, a dot, and the bare
name. -/
def QualifiedKeys (m : MCPClientManager) : Prop :=
  ∀ p ∈ m.available_tools, p.1 = p.2.server_name ++ "." ++ p.2.tool.name

/-- The decision text of the round-trip claim,
`\x7b"tool":"t","args":\x7b"a":1\x7d\x7d`. -/
def decRoundTrip : String := "\x7b\"tool\":\"t\",\"args\":\x7b\"a\":1\x7d\x7d"

/-- A decision declaring completion with no summary key. -/
def decDoneNoSummary : String := "\x7b\"done\":true\x7d"

/-- When the lookup succeeds, `call_tool` performs exactly one session
invocation, with the stored bare tool name and the given arguments,
whatever the session answers. -/
theorem call_tool_trace (m : MCPClientManager) (sess : SessionBehavior)
    (nm : String) (info : ToolInfo) (args : Json)
    (h : dictGet? m.available_tools nm = some info) :
    (m.call_tool sess (Json.str nm) args).2 =
      [{ session := info.session, name := info.tool.name, arguments := args }] := by
  simp only [MCPClientManager.call_tool, h]
  rcases hs : sess info.session info.tool.name args with e | r
  · rfl
  · rcases r with ⟨content⟩
    cases content <;> rfl

/-- For a decision that parses to a non-done invocation, the session
calls `act` performs are exactly those of the underlying `call_tool`. -/
theorem act_trace (m : MCPClientManager) (sess : SessionBehavior)
    (hist : List String) (d : String) (kvs : List (String × Json)) (tool_name : Json)
    (hparse : json_loads d = some (Json.obj kvs))
    (hdone : jsonTruthy ((dictGet? kvs "done").getD Json.null) = false)
    (htool : dictGet? kvs "tool" = some tool_name) :
    (CodeReviewAgentMCP.act m sess hist d).2.2 =
      (m.call_tool sess tool_name ((dictGet? kvs "args").getD (Json.obj []))).2 := by
  simp only [CodeReviewAgentMCP.act, hparse, hdone, htool, Bool.false_eq_true, if_false]
  rcases hc : m.call_tool sess tool_name ((dictGet? kvs "args").getD (Json.obj []))
    with ⟨res, tr⟩
  cases res <;> simp [hc]

/-- Lemma: `act` reports completion exactly when the decision parses to a JSON
object with a truthy `"done"` value. -/
theorem act_isDone (m : MCPClientManager) (sess : SessionBehavior)
    (hist : List String) (d : String) :
    (CodeReviewAgentMCP.act m sess hist d).1.2 = isDoneDecision d := by
  unfold CodeReviewAgentMCP.act isDoneDecision
  rcases hj : json_loads d with _ | parsed
  · rfl
  · cases parsed with
    | obj kvs =>
        cases htd : jsonTruthy ((dictGet? kvs "done").getD Json.null) with
        | true => simp [htd]
        | false =>
            cases ht : dictGet? kvs "tool" with
            | none => simp [htd, ht]
            | some tool_name =>
                rcases hc : m.call_tool sess tool_name
                    ((dictGet? kvs "args").getD (Json.obj [])) with ⟨res, tr⟩
                cases res <;> simp [htd, ht, hc]
    | null => rfl
    | bool b => rfl
    | num n => rfl
    | str s => rfl
    | arr xs => rfl

/-- C1: with `max_steps = 0` the loop body never runs, so the Decision
Engine (completion service) is never called — but instead of returning
the incomplete-workflow message, line 206 of `run` reads the local
`result`, which was never assigned, and Python raises
`UnboundLocalError`.  The claim part "without ever calling the Decision
Engine" holds (the llm trace is empty); its "terminates with an
Exhausted result" does not. -/
theorem C1_run_zero_steps (m : MCPClientManager) (sess : SessionBehavior)
    (llm : String → String) (goal : String) :
    CodeReviewAgentMCP.run m sess llm goal 0 =
      (Except.error (PyErr.unboundLocalError "result"), [],
       { llmCalls := [], sessionCalls := [], observations := [] }) := rfl

/-- C2 counterexample: on an unparseable decision, `act` does return the
error text as a non-terminal observation, but the conversation history
is left exactly as it was — nothing is appended (a successful step
appends one entry), refuting "appended to the conversation history
identically to a successful result". -/
theorem C2_counterexample :
    (CodeReviewAgentMCP.act M0 sess0 ["prior entry"] "I think you should...").1 =
      (some (Json.str "Error executing tool Expecting value"), false) ∧
      (CodeReviewAgentMCP.act M0 sess0 ["prior entry"] "I think you should...").2.1 =
        ["prior entry"] := ⟨rfl, rfl⟩

/-- C2 amended: whenever the tool invocation of a step fails or the decision
is malformed, `act` returns the error text as the non-terminal
observation with the history unchanged (the error is *not* appended to
the history; only successful invocations append), and — because `run`
folds the observation into the next request — any text folded into the
next request appears verbatim in the prompt of the next step. -/
theorem C2_error_step_nonfatal (m : MCPClientManager) (sess : SessionBehavior)
    (hist : List String) (d : String)
    (h : CodeReviewAgentMCP.actFails m sess d = true) :
    (∃ e tr, CodeReviewAgentMCP.act m sess hist d =
        ((some (Json.str ("Error executing tool " ++ e)), false), hist, tr)) ∧
      ∀ r : String, ∃ a b : String, think_prompt m hist r = a ++ (r ++ b) := by
  constructor
  · rcases hj : json_loads d with _ | parsed
    · exact ⟨PyErr.jsonDecodeError.str, [],
        by simp [CodeReviewAgentMCP.act, hj, errObs]⟩
    · cases parsed with
      | obj kvs =>
          cases htd : jsonTruthy ((dictGet? kvs "done").getD Json.null) with
          | true => simp [CodeReviewAgentMCP.actFails, hj, htd] at h
          | false =>
              cases ht : dictGet? kvs "tool" with
              | none =>
                  exact ⟨(PyErr.keyError "tool").str, [],
                    by simp [CodeReviewAgentMCP.act, hj, htd, ht, errObs]⟩
              | some tool_name =>
                  rcases hc : m.call_tool sess tool_name
                      ((dictGet? kvs "args").getD (Json.obj [])) with ⟨res, tr⟩
                  cases res with
                  | error e =>
                      exact ⟨e.str, tr, by
                        simp [CodeReviewAgentMCP.act, hj, htd, ht, hc, errObs]⟩
                  | ok result =>
                      simp [CodeReviewAgentMCP.actFails, hj, htd, ht, hc] at h
      | null =>
          exact ⟨(PyErr.attributeError (pyTypeName Json.null)).str, [],
            by simp [CodeReviewAgentMCP.act, hj, errObs]⟩
      | bool b =>
          exact ⟨(PyErr.attributeError (pyTypeName (Json.bool b))).str, [],
            by simp [CodeReviewAgentMCP.act, hj, errObs]⟩
      | num n =>
          exact ⟨(PyErr.attributeError (pyTypeName (Json.num n))).str, [],
            by simp [CodeReviewAgentMCP.act, hj, errObs]⟩
      | str s =>
          exact ⟨(PyErr.attributeError (pyTypeName (Json.str s))).str, [],
            by simp [CodeReviewAgentMCP.act, hj, errObs]⟩
      | arr xs =>
          exact ⟨(PyErr.attributeError (pyTypeName (Json.arr xs))).str, [],
            by simp [CodeReviewAgentMCP.act, hj, errObs]⟩
  · intro r
    refine ⟨promptPartA ++ String.intercalate "\n" (m.get_tool_descriptions.map toolLine)
        ++ promptPartB ++ historyDump hist ++ promptPartC, promptPartD, ?_⟩
    simp [think_prompt, String.append_assoc]

/-- Witness for C2 amended: a malformed decision against the connected
manager. -/
theorem C2_witness :
    CodeReviewAgentMCP.actFails M0 sess0 "not json" = true ∧
      ((∃ e tr, CodeReviewAgentMCP.act M0 sess0 [] "not json" =
          ((some (Json.str ("Error executing tool " ++ e)), false), [], tr)) ∧
        ∀ r : String, ∃ a b : String, think_prompt M0 [] r = a ++ (r ++ b)) :=
  ⟨rfl, C2_error_step_nonfatal M0 sess0 [] "not json" rfl⟩

/-- C3: an unqualified name absent from `available_tools` makes
`call_tool` raise `ValueError ("Unknown tool: ...")` with an empty
session-call trace — the membership check precedes any session
invocation. -/
theorem C3_unknown_tool_no_session_call (m : MCPClientManager)
    (sess : SessionBehavior) (nm : String) (args : Json)
    (h : dictGet? m.available_tools nm = none) :
    m.call_tool sess (Json.str nm) args =
      (Except.error (PyErr.valueError ("Unknown tool: " ++ nm)), []) := by
  simp [MCPClientManager.call_tool, h, pyStrJson]

/-- Witness for C3 on the connected manager `M0` and a name it does not
know. -/
theorem C3_witness :
    dictGet? M0.available_tools "missing" = none ∧
      M0.call_tool sess0 (Json.str "missing") (Json.obj []) =
        (Except.error (PyErr.valueError ("Unknown tool: missing")), []) :=
  ⟨rfl, C3_unknown_tool_no_session_call M0 sess0 "missing" (Json.obj []) rfl⟩

/-- C4 counterexample: `cleanup` releases the exit stack but never
touches `available_tools`; after one and after two cleanups of the
connected manager `M0` the registry mapping is still non-empty, against
the claim that it is empty after each call. -/
theorem C4_counterexample :
    (M0.cleanup).available_tools.isEmpty = false ∧
      ((M0.cleanup).cleanup).available_tools.isEmpty = false := ⟨rfl, rfl⟩

/-- C4 amended: calling `cleanup` twice in succession does not raise
(it is a total state update: the second `aclose` finds an already-empty
stack) and leaves the tool mapping of the registry exactly as it was — it is
not cleared. -/
theorem C4_cleanup_idempotent (m : MCPClientManager) :
    (m.cleanup).cleanup = m.cleanup ∧
      (m.cleanup).available_tools = m.available_tools ∧
      ((m.cleanup).cleanup).available_tools = m.available_tools :=
  ⟨rfl, rfl, rfl⟩

/-- C5: when the owning session answers zero content items, `call_tool`
returns the fixed sentinel string instead of failing. -/
theorem C5_empty_content_sentinel (m : MCPClientManager) (sess : SessionBehavior)
    (nm : String) (info : ToolInfo) (args : Json)
    (h1 : dictGet? m.available_tools nm = some info)
    (h2 : sess info.session info.tool.name args = Except.ok { content := [] }) :
    (m.call_tool sess (Json.str nm) args).1 =
      Except.ok "Tool executed successfully (no output)" := by
  simp [MCPClientManager.call_tool, h1, h2]

/-- Witness for C5: the registered `analyze.analyze_code` against a
session that returns no output. -/
theorem C5_witness :
    (∃ info, dictGet? M0.available_tools "analyze.analyze_code" = some info) ∧
      (M0.call_tool sessNoOutput (Json.str "analyze.analyze_code") (Json.obj [])).1 =
        Except.ok "Tool executed successfully (no output)" :=
  ⟨⟨_, rfl⟩,
   C5_empty_content_sentinel M0 sessNoOutput "analyze.analyze_code" _ (Json.obj [])
     rfl rfl⟩

/-- One non-terminal loop iteration, unfolded: the observation of the step is
folded into the next request and recorded, and the loop recurses on the
remaining budget. -/
theorem runAux_step (m : MCPClientManager) (sess : SessionBehavior)
    (llm : String → String) (goal : String) (cap k : Nat)
    (hist : List String) (creq : String) (last : Option (Option Json))
    (hdone : (CodeReviewAgentMCP.act m sess hist (llm (think_prompt m hist creq))).1.2
      = false) :
    CodeReviewAgentMCP.runAux m sess llm goal cap (k + 1) hist creq last =
      ((CodeReviewAgentMCP.runAux m sess llm goal cap k
          (CodeReviewAgentMCP.act m sess hist (llm (think_prompt m hist creq))).2.1
          ("Previous result: "
            ++ pyStrObs (CodeReviewAgentMCP.act m sess hist (llm (think_prompt m hist creq))).1.1
            ++ "\nContinue with the original task " ++ goal)
          (some (CodeReviewAgentMCP.act m sess hist (llm (think_prompt m hist creq))).1.1)).1,
       (CodeReviewAgentMCP.runAux m sess llm goal cap k
          (CodeReviewAgentMCP.act m sess hist (llm (think_prompt m hist creq))).2.1
          ("Previous result: "
            ++ pyStrObs (CodeReviewAgentMCP.act m sess hist (llm (think_prompt m hist creq))).1.1
            ++ "\nContinue with the original task " ++ goal)
          (some (CodeReviewAgentMCP.act m sess hist (llm (think_prompt m hist creq))).1.1)).2.1,
       { llmCalls := think_prompt m hist creq ::
           (CodeReviewAgentMCP.runAux m sess llm goal cap k
             (CodeReviewAgentMCP.act m sess hist (llm (think_prompt m hist creq))).2.1
             ("Previous result: "
               ++ pyStrObs (CodeReviewAgentMCP.act m sess hist (llm (think_prompt m hist creq))).1.1
               ++ "\nContinue with the original task " ++ goal)
             (some (CodeReviewAgentMCP.act m sess hist (llm (think_prompt m hist creq))).1.1)).2.2.llmCalls,
         sessionCalls := (CodeReviewAgentMCP.act m sess hist (llm (think_prompt m hist creq))).2.2 ++
           (CodeReviewAgentMCP.runAux m sess llm goal cap k
             (CodeReviewAgentMCP.act m sess hist (llm (think_prompt m hist creq))).2.1
             ("Previous result: "
               ++ pyStrObs (CodeReviewAgentMCP.act m sess hist (llm (think_prompt m hist creq))).1.1
               ++ "\nContinue with the original task " ++ goal)
             (some (CodeReviewAgentMCP.act m sess hist (llm (think_prompt m hist creq))).1.1)).2.2.sessionCalls,
         observations := (CodeReviewAgentMCP.act m sess hist (llm (think_prompt m hist creq))).1.1 ::
           (CodeReviewAgentMCP.runAux m sess llm goal cap k
             (CodeReviewAgentMCP.act m sess hist (llm (think_prompt m hist creq))).2.1
             ("Previous result: "
               ++ pyStrObs (CodeReviewAgentMCP.act m sess hist (llm (think_prompt m hist creq))).1.1
               ++ "\nContinue with the original task " ++ goal)
             (some (CodeReviewAgentMCP.act m sess hist (llm (think_prompt m hist creq))).1.1)).2.2.observations }) := by
  conv_lhs => rw [CodeReviewAgentMCP.runAux]
  simp [hdone]

/-- If the model never answers a done decision, every remaining-budget
segment of the loop ends by exhausting the budget, returning the
incomplete-workflow message built from the last observation. -/
theorem runAux_never_done (m : MCPClientManager) (sess : SessionBehavior)
    (llm : String → String) (goal : String) (cap : Nat)
    (hnd : ∀ p, isDoneDecision (llm p) = false) :
    ∀ k, 1 ≤ k → ∀ (hist : List String) (creq : String) (last : Option (Option Json)),
      ∃ obs rest,
        (CodeReviewAgentMCP.runAux m sess llm goal cap k hist creq last).2.2.observations
            = rest ++ [obs] ∧
          (CodeReviewAgentMCP.runAux m sess llm goal cap k hist creq last).1 =
            Except.ok (some (Json.str ("Workflow incomplete after " ++ toString cap
              ++ " steps. Last result: " ++ pyStrObs obs))) := by
  intro k
  induction k with
  | zero => omega
  | succ k ih =>
      intro _ hist creq last
      have hdone : (CodeReviewAgentMCP.act m sess hist (llm (think_prompt m hist creq))).1.2
          = false := by
        rw [act_isDone]; exact hnd _
      cases k with
      | zero =>
          refine ⟨(CodeReviewAgentMCP.act m sess hist (llm (think_prompt m hist creq))).1.1,
            [], ?_, ?_⟩ <;>
            simp [CodeReviewAgentMCP.runAux, hdone]
      | succ j =>
          obtain ⟨obs, rest, hobs, hres⟩ := ih (by omega)
            (CodeReviewAgentMCP.act m sess hist (llm (think_prompt m hist creq))).2.1
            ("Previous result: "
              ++ pyStrObs (CodeReviewAgentMCP.act m sess hist (llm (think_prompt m hist creq))).1.1
              ++ "\nContinue with the original task " ++ goal)
            (some (CodeReviewAgentMCP.act m sess hist (llm (think_prompt m hist creq))).1.1)
          rw [runAux_step m sess llm goal cap (j + 1) hist creq last hdone]
          exact ⟨obs,
            (CodeReviewAgentMCP.act m sess hist (llm (think_prompt m hist creq))).1.1 :: rest,
            by simp [hobs], by simp [hres]⟩

/-- C6 counterexample: a run in which the model never emits a done
decision (here it is never even consulted), with `max_steps = 0`: `run`
raises `UnboundLocalError` instead of returning the incomplete-workflow
message, so the claim fails at the `max_steps = 0` boundary. -/
theorem C6_counterexample :
    isDoneDecision "loop" = false ∧
      (CodeReviewAgentMCP.run M0 sess0 (fun _ => "loop") "goal" 0).1 =
        Except.error (PyErr.unboundLocalError "result") := ⟨rfl, rfl⟩

/-- C6 amended: for every `max_steps ≥ 1`, if the model never emits a
done decision then `run` returns
`f"Workflow incomplete after \x7bmax_steps\x7d steps. Last result: \x7bresult\x7d"`
where `result` is the last observation of the run. -/
theorem C6_incomplete_message (m : MCPClientManager) (sess : SessionBehavior)
    (llm : String → String) (goal : String) (n : Nat)
    (h1 : 1 ≤ n) (h2 : ∀ p, isDoneDecision (llm p) = false) :
    ∃ obs rest,
      (CodeReviewAgentMCP.run m sess llm goal n).2.2.observations = rest ++ [obs] ∧
        (CodeReviewAgentMCP.run m sess llm goal n).1 =
          Except.ok (some (Json.str ("Workflow incomplete after " ++ toString n
            ++ " steps. Last result: " ++ pyStrObs obs))) :=
  runAux_never_done m sess llm goal n h2 n h1 [] goal none

/-- Witness for C6 amended: two steps of a model that always replies an
unparseable decision. -/
theorem C6_witness :
    (1 ≤ 2 ∧ ∀ p : String, isDoneDecision ((fun _ => "loop") p) = false) ∧
      ∃ obs rest,
        (CodeReviewAgentMCP.run M0 sess0 (fun _ => "loop") "goal" 2).2.2.observations
            = rest ++ [obs] ∧
          (CodeReviewAgentMCP.run M0 sess0 (fun _ => "loop") "goal" 2).1 =
            Except.ok (some (Json.str ("Workflow incomplete after " ++ toString 2
              ++ " steps. Last result: " ++ pyStrObs obs))) :=
  ⟨⟨by omega, fun _ => rfl⟩,
   C6_incomplete_message M0 sess0 (fun _ => "loop") "goal" 2 (by omega) (fun _ => rfl)⟩

/-- C8: the decision text `\x7b"tool":"t","args":\x7b"a":1\x7d\x7d`
parses back to the invoke decision with tool `"t"` and arguments
`\x7b"a": 1\x7d`, and when `"t"` is registered those arguments reach
the owning session unchanged (no coercion, no renaming). -/
theorem C8_round_trip (m : MCPClientManager) (sess : SessionBehavior)
    (hist : List String) (info : ToolInfo)
    (h : dictGet? m.available_tools "t" = some info) :
    json_loads decRoundTrip =
      some (Json.obj [("tool", Json.str "t"),
                      ("args", Json.obj [("a", Json.num 1)])]) ∧
      (CodeReviewAgentMCP.act m sess hist decRoundTrip).2.2 =
        [{ session := info.session, name := info.tool.name,
           arguments := Json.obj [("a", Json.num 1)] }] := by
  refine ⟨rfl, ?_⟩
  rw [act_trace m sess hist decRoundTrip
        [("tool", Json.str "t"), ("args", Json.obj [("a", Json.num 1)])]
        (Json.str "t") rfl rfl rfl]
  exact call_tool_trace m sess "t" info (Json.obj [("a", Json.num 1)]) h

/-- Witness for C8 on a registry holding the key `"t"`. -/
theorem C8_witness :
    (∃ info, dictGet? MT.available_tools "t" = some info) ∧
      (CodeReviewAgentMCP.act MT sess0 [] decRoundTrip).2.2 =
        [{ session := "s", name := "t", arguments := Json.obj [("a", Json.num 1)] }] :=
  ⟨⟨_, rfl⟩, (C8_round_trip MT sess0 [] _ rfl).2⟩

/-- C9: a decision that parses to an object with a truthy `"done"` but
no `"summary"` makes `act` return `(None, True)`, and a run whose model
answers that decision returns `None` to its caller. -/
theorem C9_done_without_summary (m : MCPClientManager) (sess : SessionBehavior)
    (hist : List String) (d : String) (kvs : List (String × Json))
    (llm : String → String) (goal : String) (n : Nat)
    (h1 : json_loads d = some (Json.obj kvs))
    (h2 : jsonTruthy ((dictGet? kvs "done").getD Json.null) = true)
    (h3 : dictGet? kvs "summary" = none)
    (h4 : 1 ≤ n) (h5 : ∀ p, llm p = d) :
    CodeReviewAgentMCP.act m sess hist d = ((none, true), hist, []) ∧
      (CodeReviewAgentMCP.run m sess llm goal n).1 = Except.ok none := by
  have hact : ∀ hs : List String,
      CodeReviewAgentMCP.act m sess hs d = ((none, true), hs, []) := by
    intro hs
    simp [CodeReviewAgentMCP.act, h1, h2, h3]
  refine ⟨hact hist, ?_⟩
  obtain ⟨k, rfl⟩ : ∃ k, n = k + 1 := ⟨n - 1, by omega⟩
  simp [CodeReviewAgentMCP.run, CodeReviewAgentMCP.runAux, h5, hact]

/-- Witness for C9: `\x7b"done":true\x7d` with a single-step run. -/
theorem C9_witness :
    json_loads decDoneNoSummary = some (Json.obj [("done", Json.bool true)]) ∧
      CodeReviewAgentMCP.act M0 sess0 [] decDoneNoSummary = ((none, true), [], []) ∧
      (CodeReviewAgentMCP.run M0 sess0 (fun _ => decDoneNoSummary) "goal" 1).1 =
        Except.ok none :=
  ⟨rfl,
   (C9_done_without_summary M0 sess0 [] decDoneNoSummary [("done", Json.bool true)]
      (fun _ => decDoneNoSummary) "goal" 1 rfl rfl rfl (by omega) (fun _ => rfl)).1,
   (C9_done_without_summary M0 sess0 [] decDoneNoSummary [("done", Json.bool true)]
      (fun _ => decDoneNoSummary) "goal" 1 rfl rfl rfl (by omega) (fun _ => rfl)).2⟩

/-- Inserting a key that is not yet present appends the pair at the end
of the dict. -/
theorem dictInsert_fresh {α : Type} (d : List (String × α)) (k : String) (v : α)
    (h : k ∉ d.map Prod.fst) : dictInsert d k v = d ++ [(k, v)] := by
  induction d with
  | nil => rfl
  | cons p rest ih =>
      simp only [List.map_cons, List.mem_cons] at h
      push_neg at h
      simp [dictInsert, Ne.symm h.1, ih h.2]

/-- Registering a batch of tools with fresh, pairwise-distinct qualified
names appends their entries, in order, to the existing dict. -/
theorem foldl_register (ts : List Tool) (s : String) (d : List (String × ToolInfo))
    (h : (d.map Prod.fst ++ ts.map fun t => s ++ "." ++ t.name).Nodup) :
    ts.foldl
        (fun d tool =>
          dictInsert d (s ++ "." ++ tool.name)
            { server_name := s, session := s, tool := tool }) d =
      d ++ ts.map (fun t => (s ++ "." ++ t.name,
        ({ server_name := s, session := s, tool := t } : ToolInfo))) := by
  induction ts generalizing d with
  | nil => simp
  | cons t ts ih =>
      have hsplit : d.map Prod.fst ++ (t :: ts).map (fun t => s ++ "." ++ t.name) =
          (d.map Prod.fst ++ [s ++ "." ++ t.name]) ++ ts.map (fun t => s ++ "." ++ t.name) := by
        simp
      rw [hsplit] at h
      have hfresh : (s ++ "." ++ t.name) ∉ d.map Prod.fst := by
        have hd := (List.nodup_append.mp h).1
        have := (List.nodup_append.mp hd).2.2
        intro hmem
        exact this hmem (List.mem_singleton_self _)
      have hins := dictInsert_fresh d (s ++ "." ++ t.name)
        ({ server_name := s, session := s, tool := t } : ToolInfo) hfresh
      have hkeys : (d ++ [(s ++ "." ++ t.name,
          ({ server_name := s, session := s, tool := t } : ToolInfo))]).map Prod.fst =
          d.map Prod.fst ++ [s ++ "." ++ t.name] := by simp
      calc (t :: ts).foldl
            (fun d tool =>
              dictInsert d (s ++ "." ++ tool.name)
                { server_name := s, session := s, tool := tool }) d
          = ts.foldl
              (fun d tool =>
                dictInsert d (s ++ "." ++ tool.name)
                  { server_name := s, session := s, tool := tool })
              (d ++ [(s ++ "." ++ t.name,
                ({ server_name := s, session := s, tool := t } : ToolInfo))]) := by
            rw [List.foldl_cons, hins]
        _ = (d ++ [(s ++ "." ++ t.name,
              ({ server_name := s, session := s, tool := t } : ToolInfo))])
              ++ ts.map (fun t => (s ++ "." ++ t.name,
                ({ server_name := s, session := s, tool := t } : ToolInfo))) := by
            exact ih _ (by rw [hkeys]; exact h)
        _ = d ++ (t :: ts).map (fun t => (s ++ "." ++ t.name,
              ({ server_name := s, session := s, tool := t } : ToolInfo))) := by
            simp

/-- A collision-free connect sequence appends exactly one entry per
discovered tool, in discovery order. -/
theorem connectAllFrom_tools (conns : List (String × List Tool)) :
    ∀ m : MCPClientManager,
      (m.available_tools.map Prod.fst ++ qualNames conns).Nodup →
        (connectAllFrom m conns).available_tools =
          m.available_tools ++ toolEntries conns := by
  induction conns with
  | nil => intro m _; simp [connectAllFrom, toolEntries]
  | cons c rest ih =>
      intro m h
      rcases c with ⟨s, ts⟩
      have hassoc : m.available_tools.map Prod.fst ++ qualNames ((s, ts) :: rest) =
          (m.available_tools.map Prod.fst ++ ts.map fun t => s ++ "." ++ t.name)
            ++ qualNames rest := by
        simp [qualNames]
      rw [hassoc] at h
      have hleft := (List.nodup_append.mp h).1
      have hm' : (m.connect_to_server s ts).available_tools =
          m.available_tools ++ ts.map (fun t => (s ++ "." ++ t.name,
            ({ server_name := s, session := s, tool := t } : ToolInfo))) := by
        simp only [MCPClientManager.connect_to_server]
        exact foldl_register ts s m.available_tools hleft
      have hkeys' : (m.connect_to_server s ts).available_tools.map Prod.fst =
          m.available_tools.map Prod.fst ++ ts.map fun t => s ++ "." ++ t.name := by
        rw [hm']; simp
      have hstep : connectAllFrom m ((s, ts) :: rest) =
          connectAllFrom (m.connect_to_server s ts) rest := rfl
      rw [hstep, ih (m.connect_to_server s ts) (by rw [hkeys']; exact h), hm']
      simp [toolEntries]

/-- The keys of the entries a connect sequence produces are exactly its
qualified names, in order. -/
theorem toolEntries_keys (conns : List (String × List Tool)) :
    (toolEntries conns).map Prod.fst = qualNames conns := by
  induction conns with
  | nil => rfl
  | cons c rest ih => simp [toolEntries, qualNames, ih, List.map_map, Function.comp]

/-- C7 counterexample: two connects with distinct `(session_id,
tool_name)` pairs — `("a.b", "c")` and `("a", "b.c")` — both qualify to
the string `"a.b.c"`, so the second registration overwrites the first
and `list_tools` returns one descriptor for two discovered tools. -/
theorem C7_counterexample :
    (("a.b", "c") ≠ (("a" : String), ("b.c" : String))) ∧
      M7.get_tool_descriptions.length = 1 ∧
      M7.get_tool_descriptions.map (fun d => d.description) = ["second"] :=
  ⟨by decide, rfl, rfl⟩

/-- C7 amended: when the *qualified names* `session_id ++ "." ++
tool_name` across the connect sequence are pairwise distinct, every
discovered tool is registered under its qualified name and
`get_tool_descriptions` returns exactly one descriptor per discovered
tool, in discovery order, with unique names. -/
theorem C7_qualified_registration (conns : List (String × List Tool))
    (h : (qualNames conns).Nodup) :
    (connectAll conns).available_tools = toolEntries conns ∧
      (connectAll conns).get_tool_descriptions.map (fun d => d.name) =
        qualNames conns := by
  have h0 : (emptyManager.available_tools.map Prod.fst ++ qualNames conns).Nodup := by
    simpa [emptyManager] using h
  have h1 := connectAllFrom_tools conns emptyManager h0
  have h2 : (connectAll conns).available_tools = toolEntries conns := by
    simpa [connectAll, emptyManager] using h1
  refine ⟨h2, ?_⟩
  have h3 : (connectAll conns).get_tool_descriptions.map (fun d => d.name) =
      (connectAll conns).available_tools.map Prod.fst := by
    simp [MCPClientManager.get_tool_descriptions, List.map_map, Function.comp]
  rw [h3, h2, toolEntries_keys]

/-- Witness for C7 amended: two servers, three tools, no collisions. -/
theorem C7_witness :
    (qualNames conns7).Nodup ∧
      ((connectAll conns7).available_tools = toolEntries conns7 ∧
        (connectAll conns7).get_tool_descriptions.map (fun d => d.name) =
          qualNames conns7) :=
  ⟨by decide, C7_qualified_registration conns7 (by decide)⟩

/-- A successful dict lookup means the pair is in the dict. -/
theorem dictGet?_mem {α : Type} (d : List (String × α)) (k : String) (v : α)
    (h : dictGet? d k = some v) : (k, v) ∈ d := by
  induction d with
  | nil => simp [dictGet?] at h
  | cons p rest ih =>
      rcases p with ⟨k', v'⟩
      by_cases hk : k' = k
      · subst hk
        simp [dictGet?] at h
        subst h
        exact List.mem_cons_self _ _
      · simp [dictGet?, hk] at h
        exact List.mem_cons_of_mem _ (ih h)

/-- Membership after a dict insert: the pair is the inserted one or was
already present. -/
theorem mem_dictInsert {α : Type} (d : List (String × α)) (k : String) (v : α)
    (p : String × α) (h : p ∈ dictInsert d k v) : p = (k, v) ∨ p ∈ d := by
  induction d with
  | nil => simpa [dictInsert] using h
  | cons q rest ih =>
      rcases q with ⟨k', v'⟩
      by_cases hk : k' = k
      · subst hk
        simp [dictInsert] at h
        rcases h with h | h
        · exact Or.inl (by simp [h])
        · exact Or.inr (List.mem_cons_of_mem _ h)
      · simp [dictInsert, hk] at h
        rcases h with h | h
        · exact Or.inr (by simp [h])
        · rcases ih h with h' | h'
          · exact Or.inl h'
          · exact Or.inr (List.mem_cons_of_mem _ h')

/-- Lemma: `connect_to_server` preserves the qualified-keys invariant. -/
theorem connect_qualifiedKeys (m : MCPClientManager) (s : String) (ts : List Tool)
    (h : QualifiedKeys m) : QualifiedKeys (m.connect_to_server s ts) := by
  have hgen : ∀ (ts2 : List Tool) (d : List (String × ToolInfo)),
      (∀ p ∈ d, (p : String × ToolInfo).1 = p.2.server_name ++ "." ++ p.2.tool.name) →
      ∀ p ∈ ts2.foldl
        (fun d tool =>
          dictInsert d (s ++ "." ++ tool.name)
            { server_name := s, session := s, tool := tool }) d,
        (p : String × ToolInfo).1 = p.2.server_name ++ "." ++ p.2.tool.name := by
    intro ts2
    induction ts2 with
    | nil => intro d hd p hp; exact hd p hp
    | cons t rest ih =>
        intro d hd p hp
        refine ih _ ?_ p hp
        intro q hq
        rcases mem_dictInsert d (s ++ "." ++ t.name)
          { server_name := s, session := s, tool := t } q hq with h' | h'
        · subst h'; rfl
        · exact hd q h'
  intro p hp
  simp only [MCPClientManager.connect_to_server] at hp
  exact hgen ts m.available_tools h p hp

/-- Every registry built by a sequence of connects satisfies the
qualified-keys invariant. -/
theorem connectAll_qualifiedKeys (conns : List (String × List Tool)) :
    QualifiedKeys (connectAll conns) := by
  suffices hgen : ∀ conns m, QualifiedKeys m → QualifiedKeys (connectAllFrom m conns) by
    exact hgen conns emptyManager (by intro p hp; simp [emptyManager] at hp)
  intro conns
  induction conns with
  | nil => intro m h; exact h
  | cons c rest ih =>
      intro m h
      exact ih (m.connect_to_server c.1 c.2) (connect_qualifiedKeys m c.1 c.2 h)

/-- C10: for every name registered by a connect sequence, `call_tool`
invokes the owning session with the *stored bare tool name* — the
registered key is the server name, a dot, and that bare name, and the
single session invocation carries the bare name, never the qualified
key. -/
theorem C10_bare_name_dispatch (conns : List (String × List Tool))
    (sess : SessionBehavior) (q : String) (info : ToolInfo) (args : Json)
    (h : dictGet? (connectAll conns).available_tools q = some info) :
    q = info.server_name ++ "." ++ info.tool.name ∧
      ((connectAll conns).call_tool sess (Json.str q) args).2 =
        [{ session := info.session, name := info.tool.name, arguments := args }] :=
  ⟨connectAll_qualifiedKeys conns (q, info)
      (dictGet?_mem (connectAll conns).available_tools q info h),
   call_tool_trace (connectAll conns) sess q info args h⟩

/-- Witness for C10: the tool of the analyze server, looked up by its
qualified name, is dispatched under its bare name `analyze_code`. -/
theorem C10_witness :
    dictGet? (connectAll [("analyze", [analyzeTool])]).available_tools
        "analyze.analyze_code" =
      some { server_name := "analyze", session := "analyze", tool := analyzeTool } ∧
      ("analyze.analyze_code" =
          "analyze" ++ "." ++ analyzeTool.name ∧
        ((connectAll [("analyze", [analyzeTool])]).call_tool sess0
            (Json.str "analyze.analyze_code") (Json.obj [])).2 =
          [{ session := "analyze", name := "analyze_code", arguments := Json.obj [] }]) :=
  ⟨rfl, C10_bare_name_dispatch [("analyze", [analyzeTool])] sess0
    "analyze.analyze_code"
    { server_name := "analyze", session := "analyze", tool := analyzeTool }
    (Json.obj []) rfl⟩

end MCPAgent
